import Mathlib

set_option maxRecDepth 100000

/-!
Verification of the Schotter generative-art program (`src/main.rs`).

The program state (`Model`, `Stone`), the per-frame animation pass
(`update`), and the keyboard handler (`key_pressed`) are embedded as pure
Lean functions.  Rust `f32` arithmetic is embedded as exact rational
arithmetic (`ℚ`): all step constants (`0.5`, `0.5 * (COLS/ROWS)`, `0.1`)
and comparisons are modelled exactly; the `f32` constant `PI` is embedded
as the exact rational value of the 32-bit float nearest to π.

The seeded random generator (`StdRng`, from the external `nannou::rand`
crate) is not repository code; the animation pass is therefore
parametrised by an abstract draw stream `rng : ℕ → ℚ` of raw uniform
values in `[0,1)`, and a concrete deterministic stream `stdRng` (a pure
function of the seed, modelled from the spec) is supplied for concrete
evaluations.
-/

/-- `const COLS: u32 = 12` -/
def COLS : ℕ := 12

/-- `const ROWS: u32 = 22` -/
def ROWS : ℕ := 22

/-- `const SIZE: u32 = 30` -/
def SIZE : ℕ := 30

/-- `const MARGIN: u32 = 35` -/
def MARGIN : ℕ := 35

/-- `const WIDTH: u32 = COLS * SIZE + 2 * MARGIN` -/
def WIDTH : ℕ := COLS * SIZE + 2 * MARGIN

/-- `const HEIGHT: u32 = ROWS * SIZE + 75 + 2 * MARGIN` -/
def HEIGHT : ℕ := ROWS * SIZE + 75 + 2 * MARGIN

/-- The exact rational value of the 32-bit float `PI`
(`f32::consts::PI`, bit pattern `0x40490FDB`), used by
`rng.gen_range(-PI / 4.0..PI / 4.0)`.  `PI / 4.0` is a division by a
power of two, hence exact in `f32` and in this embedding. -/
def PI : ℚ := 13175771 / 4194304

/-- `struct Stone` of `src/main.rs`: `x, y` is the animated current
position, `final_x, final_y` the integer-valued grid target,
`x_offset, y_offset, final_rot` the per-frame random jitter. -/
structure Stone where
  x : ℚ
  y : ℚ
  x_offset : ℚ
  y_offset : ℚ
  final_x : ℚ
  final_y : ℚ
  final_rot : ℚ
deriving DecidableEq

/-- `Stone::new(final_x, final_y)`: zeroed stone at its grid target. -/
def Stone.new (fx fy : ℚ) : Stone :=
  { x := 0, y := 0, x_offset := 0, y_offset := 0
    final_x := fx, final_y := fy, final_rot := 0 }

/-- The adjustment parameters read by the animation pass
(`model.disp_adj`, `model.rot_adj`). -/
structure Params where
  disp_adj : ℚ
  rot_adj : ℚ
deriving DecidableEq

/-- `struct Model` of `src/main.rs`, without the window handle and the
egui UI context (pure render/UI resources carrying no animation state). -/
structure Model where
  disp_adj : ℚ
  rot_adj : ℚ
  gravel : List Stone
  random_seed : ℕ
deriving DecidableEq

/-- Modelled from the spec: `random_range(lo, hi)` of the external
`nannou` crate draws uniformly in `[lo, hi)`.  The entropy is made an
explicit argument `r`; the draw is `lo + r % (hi - lo)`, which ranges
exactly over `[lo, hi)` as `r` ranges over `ℕ`. -/
def random_range (lo hi r : ℕ) : ℕ := lo + r % (hi - lo)

/-- The gravel grid built by `setup` (and rebuilt by the Randomize
button): `for y in 0..ROWS { for x in 0..COLS { Stone::new(x, y) } }`,
row-major with row 0 first. -/
def initGravel : List Stone :=
  (List.range ROWS).flatMap (fun y => (List.range COLS).map (fun x => Stone.new x y))

/-- `setup`, restricted to the model state (window/UI creation omitted):
`disp_adj = 1.0`, `rot_adj = 1.0`, the row-major grid, and a seed drawn by
`random_range(0, 1_000_000)` with entropy `r`. -/
def setup (r : ℕ) : Model :=
  { disp_adj := 1, rot_adj := 1, gravel := initGravel
    random_seed := random_range 0 1000000 r }

/-- Modelled from the spec: `rng.gen_range(lo..hi)` maps a raw uniform
draw `u ∈ [0,1)` into `[lo, hi)` affinely. -/
def genRange (lo hi u : ℚ) : ℚ := lo + (hi - lo) * u

/-- Modelled from the spec: one step of a deterministic 64-bit linear
congruential generator, standing in for the external `StdRng` state
transition (the spec requires only a deterministic seeded stream). -/
def lcg (s : ℕ) : ℕ := (6364136223846793005 * s + 1442695040888963407) % 18446744073709551616

/-- Modelled from the spec: `StdRng::seed_from_u64(seed)` as a
deterministic stream of raw uniform draws in `[0,1)`: a pure function of
the seed and the draw index. -/
def stdRng (seed : ℕ) (i : ℕ) : ℚ := ((lcg^[i + 1] seed) % 4294967296 : ℕ) / 4294967296

/-- The body of the per-stone loop of `update`: offsets and rotation are
recomputed from the depth factor `stone.y / ROWS as f32` (the animated
current `y`) scaled by the adjustment parameters, using the three draws
`d1, d2, d3` consumed in order; then the position steps toward the
target. -/
def updateStone (p : Params) (d1 d2 d3 : ℚ) (s : Stone) : Stone :=
  let factor := s.y / (ROWS : ℚ)
  let disp_factor := factor * p.disp_adj
  let rot_factor := factor * p.rot_adj
  { s with
    x_offset := disp_factor * genRange (-(1/2)) (1/2) d1
    y_offset := disp_factor * genRange (-(1/2)) (1/2) d2
    final_rot := rot_factor * genRange (-(PI / 4)) (PI / 4) d3
    x := if s.x < s.final_x then s.x + (1/2) * ((COLS : ℚ) / (ROWS : ℚ)) else s.x
    y := if s.y < s.final_y then s.y + 1/2 else s.y }

/-- The x-step `0.5 * (COLS as f32 / ROWS as f32)` (= 3/11). -/
def xStep : ℚ := (1/2) * ((COLS : ℚ) / (ROWS : ℚ))

/-- The stone loop of `update`, threading the index of the next unused
draw of the stream `rng`; returns the updated stones and the index after
the pass (so the number of draws consumed is observable). -/
def updateGravel (rng : ℕ → ℚ) (p : Params) : List Stone → ℕ → List Stone × ℕ
  | [], i => ([], i)
  | s :: rest, i =>
    let s2 := updateStone p (rng i) (rng (i + 1)) (rng (i + 2)) s
    let r := updateGravel rng p rest (i + 3)
    (s2 :: r.1, r.2)

/-- One animation-update pass of `update` over the gravel: the stream is
freshly seeded (`StdRng::seed_from_u64(model.random_seed)`), so the pass
starts at draw index 0.  (The egui control-panel block that precedes the
loop is UI code and carries no animation-pass state.) -/
def update (rng : ℕ → ℚ) (p : Params) (g : List Stone) : List Stone :=
  (updateGravel rng p g 0).1

/-- The keys of `key_pressed` (other keys have no effect). -/
inductive Key where
  | R | S | Up | Down | Right | Left | Other
deriving DecidableEq

/-- `key_pressed` of `src/main.rs`, restricted to the model state.  `r`
is the entropy of the `random_range` draw used by the `R` arm; the `S`
arm captures a frame to a file and does not touch the model. -/
def key_pressed (r : ℕ) (k : Key) (m : Model) : Model :=
  match k with
  | Key.R => { m with random_seed := random_range 0 1000000 r }
  | Key.S => m
  | Key.Up => { m with disp_adj := m.disp_adj + 1/10 }
  | Key.Down => if m.disp_adj > 0 then { m with disp_adj := m.disp_adj - 1/10 } else m
  | Key.Right => { m with rot_adj := m.rot_adj + 1/10 }
  | Key.Left => if m.rot_adj > 0 then { m with rot_adj := m.rot_adj - 1/10 } else m
  | Key.Other => m

/-- The Randomize-button arm of the egui block in `update`: draw a new
seed with `random_range(0, 1_000_000)` and replace the gravel with the
freshly built row-major grid. -/
def randomize (r : ℕ) (m : Model) : Model :=
  { m with random_seed := random_range 0 1000000 r, gravel := initGravel }

/-! ### Helper lemmas shared across claims -/

theorem updateStone_x (p : Params) (d1 d2 d3 : ℚ) (s : Stone) :
    (updateStone p d1 d2 d3 s).x = if s.x < s.final_x then s.x + xStep else s.x := rfl

theorem updateStone_y (p : Params) (d1 d2 d3 : ℚ) (s : Stone) :
    (updateStone p d1 d2 d3 s).y = if s.y < s.final_y then s.y + 1/2 else s.y := rfl

theorem updateStone_final_x (p : Params) (d1 d2 d3 : ℚ) (s : Stone) :
    (updateStone p d1 d2 d3 s).final_x = s.final_x := rfl

theorem updateStone_final_y (p : Params) (d1 d2 d3 : ℚ) (s : Stone) :
    (updateStone p d1 d2 d3 s).final_y = s.final_y := rfl

theorem updateStone_x_offset (p : Params) (d1 d2 d3 : ℚ) (s : Stone) :
    (updateStone p d1 d2 d3 s).x_offset =
      s.y / (ROWS : ℚ) * p.disp_adj * genRange (-(1/2)) (1/2) d1 := rfl

theorem updateStone_y_offset (p : Params) (d1 d2 d3 : ℚ) (s : Stone) :
    (updateStone p d1 d2 d3 s).y_offset =
      s.y / (ROWS : ℚ) * p.disp_adj * genRange (-(1/2)) (1/2) d2 := rfl

theorem updateStone_final_rot (p : Params) (d1 d2 d3 : ℚ) (s : Stone) :
    (updateStone p d1 d2 d3 s).final_rot =
      s.y / (ROWS : ℚ) * p.rot_adj * genRange (-(PI / 4)) (PI / 4) d3 := rfl

theorem updateGravel_get? (rng : ℕ → ℚ) (p : Params) :
    ∀ (g : List Stone) (i k : ℕ),
      (updateGravel rng p g i).1.get? k =
        (g.get? k).map
          (fun s => updateStone p (rng (i + 3 * k)) (rng (i + 3 * k + 1)) (rng (i + 3 * k + 2)) s)
  | [], i, k => by simp [updateGravel]
  | s :: rest, i, 0 => by simp [updateGravel]
  | s :: rest, i, k + 1 => by
    have h := updateGravel_get? rng p rest (i + 3) k
    have e1 : i + 3 + 3 * k = i + 3 * (k + 1) := by ring
    have e2 : i + 3 + 3 * k + 1 = i + 3 * (k + 1) + 1 := by ring
    have e3 : i + 3 + 3 * k + 2 = i + 3 * (k + 1) + 2 := by ring
    simpa [updateGravel, e1, e2, e3] using h

theorem update_get? (rng : ℕ → ℚ) (p : Params) (g : List Stone) (k : ℕ) :
    (update rng p g).get? k =
      (g.get? k).map
        (fun s => updateStone p (rng (3 * k)) (rng (3 * k + 1)) (rng (3 * k + 2)) s) := by
  simpa using updateGravel_get? rng p g 0 k

theorem updateGravel_count (rng : ℕ → ℚ) (p : Params) :
    ∀ (g : List Stone) (i : ℕ), (updateGravel rng p g i).2 = i + 3 * g.length
  | [], i => by simp [updateGravel]
  | s :: rest, i => by
    have h := updateGravel_count rng p rest (i + 3)
    simp only [updateGravel, h, List.length_cons]
    ring

theorem mem_update (rng : ℕ → ℚ) (p : Params) (g : List Stone) (t : Stone)
    (ht : t ∈ update rng p g) :
    ∃ s ∈ g, ∃ d1 d2 d3 : ℚ, t = updateStone p d1 d2 d3 s := by
  obtain ⟨k, hk⟩ := List.mem_iff_get?.1 ht
  rw [update_get?] at hk
  obtain ⟨s, hs, hst⟩ := Option.map_eq_some'.1 hk
  exact ⟨s, List.mem_iff_get?.2 ⟨k, hs⟩, _, _, _, hst.symm⟩

theorem initGravel_length : initGravel.length = ROWS * COLS := by decide

theorem initGravel_get? (k : ℕ) (hk : k < ROWS * COLS) :
    initGravel.get? k = some (Stone.new ((k % COLS : ℕ) : ℚ) ((k / COLS : ℕ) : ℚ)) := by
  have h : ∀ j : Fin (ROWS * COLS),
      initGravel.get? (j : ℕ) =
        some (Stone.new (((j : ℕ) % COLS : ℕ) : ℚ) (((j : ℕ) / COLS : ℕ) : ℚ)) := by decide
  exact h ⟨k, hk⟩

theorem genRange_mem (lo hi u : ℚ) (hlt : lo < hi) (h0 : 0 ≤ u) (h1 : u < 1) :
    lo ≤ genRange lo hi u ∧ genRange lo hi u < hi := by
  unfold genRange
  constructor
  · nlinarith
  · nlinarith

theorem stdRng_mem (seed i : ℕ) : 0 ≤ stdRng seed i ∧ stdRng seed i < 1 := by
  unfold stdRng
  constructor
  · positivity
  · rw [div_lt_one (by norm_num)]
    exact_mod_cast Nat.mod_lt _ (by norm_num)

/-! ### Claim theorems -/

/-- C10: the window's fixed pixel dimensions computed from the constants
COLS = 12, ROWS = 22, SIZE = 30, MARGIN = 35 are exactly
width = COLS*SIZE + 2*MARGIN = 430 and height = ROWS*SIZE + 75 + 2*MARGIN = 805. -/
theorem window_dimensions :
    WIDTH = COLS * SIZE + 2 * MARGIN ∧ WIDTH = 430 ∧
    HEIGHT = ROWS * SIZE + 75 + 2 * MARGIN ∧ HEIGHT = 805 := by decide

/-- C8: the R key handler draws a new random seed in [0, 1_000_000) and
modifies only the seed field of the model: the gravel list (hence every
cell's current position, offsets, rotation and targets), displacement
factor and rotation factor are left unchanged. -/
theorem reseed_changes_only_seed (r : ℕ) (m : Model) :
    (key_pressed r Key.R m).random_seed = random_range 0 1000000 r ∧
    (key_pressed r Key.R m).random_seed < 1000000 ∧
    (key_pressed r Key.R m).gravel = m.gravel ∧
    (key_pressed r Key.R m).disp_adj = m.disp_adj ∧
    (key_pressed r Key.R m).rot_adj = m.rot_adj := by
  refine ⟨rfl, ?_, rfl, rfl, rfl⟩
  show random_range 0 1000000 r < 1000000
  unfold random_range
  omega

/-- C5: each update call adds exactly 0.5*(COLS/ROWS) to current_x while
current_x < final_x (a strict increase) and exactly 0.5 to current_y while
current_y < final_y (a strict increase), and once current_x >= final_x
(resp. current_y >= final_y) that coordinate is left unchanged by every
further update call (the reached position is a fixed point). -/
theorem step_convergence (p : Params) (d1 d2 d3 : ℚ) (s : Stone) :
    (s.x < s.final_x →
      (updateStone p d1 d2 d3 s).x = s.x + (1/2) * ((COLS : ℚ) / (ROWS : ℚ)) ∧
      s.x < (updateStone p d1 d2 d3 s).x) ∧
    (s.y < s.final_y →
      (updateStone p d1 d2 d3 s).y = s.y + 1/2 ∧
      s.y < (updateStone p d1 d2 d3 s).y) ∧
    (s.final_x ≤ s.x → (updateStone p d1 d2 d3 s).x = s.x) ∧
    (s.final_y ≤ s.y → (updateStone p d1 d2 d3 s).y = s.y) := by
  have hxpos : (0 : ℚ) < xStep := by norm_num [xStep, COLS, ROWS]
  refine ⟨fun h => ?_, fun h => ?_, fun h => ?_, fun h => ?_⟩
  · have hx := updateStone_x p d1 d2 d3 s
    rw [if_pos h] at hx
    exact ⟨by rw [hx]; rfl, by rw [hx]; linarith⟩
  · have hy := updateStone_y p d1 d2 d3 s
    rw [if_pos h] at hy
    exact ⟨hy, by rw [hy]; linarith⟩
  · rw [updateStone_x, if_neg (not_lt.2 h)]
  · rw [updateStone_y, if_neg (not_lt.2 h)]

/-- Witness for C5: a fresh stone targeting (1,1) takes one x-step. -/
theorem step_convergence_witness :
    (updateStone ⟨1, 1⟩ 0 0 0 (Stone.new 1 1)).x =
      (Stone.new 1 1).x + (1/2) * ((COLS : ℚ) / (ROWS : ℚ)) :=
  ((step_convergence ⟨1, 1⟩ 0 0 0 (Stone.new 1 1)).1 (by decide)).1

/-- C2 counterexample: for a fresh stone of row 1 (final_y = 1, animated
y = 0) with disp_adj = 1 and draw 3/4, the x_offset produced by the update
body is 0, whereas the claimed depth factor final_y/ROWS would give
(1/22)·1·(1/4) = 1/88 ≠ 0: the code computes the depth factor from the
animated current y (`stone.y / ROWS as f32`), not from the target row. -/
theorem depth_factor_cex :
    (updateStone ⟨1, 1⟩ (3/4) (3/4) (3/4) (Stone.new 0 1)).x_offset = 0 ∧
    (Stone.new 0 1).final_y / (ROWS : ℚ) * (1 : ℚ) * genRange (-(1/2)) (1/2) (3/4) = 1/88 ∧
    (0 : ℚ) ≠ 1/88 := by
  refine ⟨?_, ?_, by norm_num⟩
  · rw [updateStone_x_offset]
    norm_num [Stone.new]
  · norm_num [Stone.new, genRange, ROWS]

/-- C2 amended: on each update tick the depth factor used to scale a
cell's jitter and rotation is current_y / ROWS (the animated position),
not final_y / ROWS; the two agree once the cell has reached its target
row. -/
theorem depth_factor_uses_current_y (p : Params) (d1 d2 d3 : ℚ) (s : Stone) :
    (updateStone p d1 d2 d3 s).x_offset =
      s.y / (ROWS : ℚ) * p.disp_adj * genRange (-(1/2)) (1/2) d1 ∧
    (updateStone p d1 d2 d3 s).y_offset =
      s.y / (ROWS : ℚ) * p.disp_adj * genRange (-(1/2)) (1/2) d2 ∧
    (updateStone p d1 d2 d3 s).final_rot =
      s.y / (ROWS : ℚ) * p.rot_adj * genRange (-(PI / 4)) (PI / 4) d3 ∧
    (s.y = s.final_y → s.y / (ROWS : ℚ) = s.final_y / (ROWS : ℚ)) :=
  ⟨rfl, rfl, rfl, fun h => by rw [h]⟩

/-- Witness for C2 amended: a stone already at its target row (0,0). -/
theorem depth_factor_uses_current_y_witness :
    (updateStone ⟨1, 1⟩ 0 0 0 (Stone.new 0 0)).x_offset =
      (Stone.new 0 0).y / (ROWS : ℚ) * (1 : ℚ) * genRange (-(1/2)) (1/2) 0 ∧
    (Stone.new 0 0).y / (ROWS : ℚ) = (Stone.new 0 0).final_y / (ROWS : ℚ) :=
  ⟨(depth_factor_uses_current_y ⟨1, 1⟩ 0 0 0 (Stone.new 0 0)).1,
   (depth_factor_uses_current_y ⟨1, 1⟩ 0 0 0 (Stone.new 0 0)).2.2.2 (by decide)⟩

/-- C4: the animation-update pass is a deterministic function of the
seed, the parameters and the grid state: with the same seed (hence the
same seeded stream) and equal parameters and grids, two independent runs
produce identical x_offset, y_offset and rotation for every cell. -/
theorem update_deterministic (seed : ℕ) (p1 p2 : Params) (g1 g2 : List Stone)
    (hp : p1 = p2) (hg : g1 = g2) (k : ℕ) :
    ((update (stdRng seed) p1 g1).get? k).map (fun s => (s.x_offset, s.y_offset, s.final_rot)) =
    ((update (stdRng seed) p2 g2).get? k).map (fun s => (s.x_offset, s.y_offset, s.final_rot)) := by
  rw [hp, hg]

/-- Witness for C4: two runs over the singleton grid with seed 0. -/
theorem update_deterministic_witness :
    ((update (stdRng 0) ⟨1, 1⟩ [Stone.new 0 0]).get? 0).map
        (fun s => (s.x_offset, s.y_offset, s.final_rot)) =
    ((update (stdRng 0) ⟨1, 1⟩ [Stone.new 0 0]).get? 0).map
        (fun s => (s.x_offset, s.y_offset, s.final_rot)) :=
  update_deterministic 0 ⟨1, 1⟩ ⟨1, 1⟩ [Stone.new 0 0] [Stone.new 0 0] rfl rfl 0

/-- C3: in an update pass over the startup grid the cells are traversed
in row-major order (cell k of the traversal is the one with row k / COLS
and column k % COLS, so row 0 comes first); exactly three draws are
consumed per cell in the fixed order x-jitter, y-jitter, rotation (cell k
uses draws 3k, 3k+1, 3k+2 of the seeded stream); whenever the raw stream
lies in [0,1) the jitter draws land in [-1/2, 1/2) and the rotation draw
in [-PI/4, PI/4); and the pass consumes 3 * ROWS * COLS draws in total. -/
theorem update_draw_order (rng : ℕ → ℚ) (p : Params) (k : ℕ)
    (hk : k < ROWS * COLS) (hrng : ∀ i, 0 ≤ rng i ∧ rng i < 1) :
    initGravel.get? k = some (Stone.new ((k % COLS : ℕ) : ℚ) ((k / COLS : ℕ) : ℚ)) ∧
    (update rng p initGravel).get? k =
      some (updateStone p (rng (3 * k)) (rng (3 * k + 1)) (rng (3 * k + 2))
        (Stone.new ((k % COLS : ℕ) : ℚ) ((k / COLS : ℕ) : ℚ))) ∧
    (-(1/2) ≤ genRange (-(1/2)) (1/2) (rng (3 * k)) ∧
      genRange (-(1/2)) (1/2) (rng (3 * k)) < 1/2) ∧
    (-(1/2) ≤ genRange (-(1/2)) (1/2) (rng (3 * k + 1)) ∧
      genRange (-(1/2)) (1/2) (rng (3 * k + 1)) < 1/2) ∧
    (-(PI / 4) ≤ genRange (-(PI / 4)) (PI / 4) (rng (3 * k + 2)) ∧
      genRange (-(PI / 4)) (PI / 4) (rng (3 * k + 2)) < PI / 4) ∧
    (updateGravel rng p initGravel 0).2 = 3 * (ROWS * COLS) := by
  have hg := initGravel_get? k hk
  refine ⟨hg, ?_, ?_, ?_, ?_, ?_⟩
  · rw [update_get?, hg]
    rfl
  · exact genRange_mem _ _ _ (by norm_num) (hrng _).1 (hrng _).2
  · exact genRange_mem _ _ _ (by norm_num) (hrng _).1 (hrng _).2
  · exact genRange_mem _ _ _ (by norm_num [PI]) (hrng _).1 (hrng _).2
  · rw [updateGravel_count, initGravel_length]
    exact Nat.zero_add _

/-- Witness for C3: the constant stream 1/2 at cell 13, total draw count. -/
theorem update_draw_order_witness :
    initGravel.get? 13 = some (Stone.new ((13 % COLS : ℕ) : ℚ) ((13 / COLS : ℕ) : ℚ)) ∧
    (updateGravel (fun _ => 1/2) ⟨1, 1⟩ initGravel 0).2 = 3 * (ROWS * COLS) :=
  ⟨(update_draw_order (fun _ => 1/2) ⟨1, 1⟩ 13 (by decide)
      (fun i => by norm_num)).1,
   (update_draw_order (fun _ => 1/2) ⟨1, 1⟩ 13 (by decide)
      (fun i => by norm_num)).2.2.2.2.2⟩

/-- C6: the Randomize action, regardless of prior animation progress,
replaces the entire cell set with ROWS*COLS freshly zeroed cells
(current position, offsets and rotation all 0, targets at the grid
coordinates in row-major order) and sets the stored seed to a value in
[0, 1_000_000). -/
theorem randomize_resets (r : ℕ) (m : Model) (k : ℕ) (hk : k < ROWS * COLS) :
    (randomize r m).gravel.length = ROWS * COLS ∧
    (randomize r m).gravel.get? k =
      some { x := 0, y := 0, x_offset := 0, y_offset := 0,
             final_x := ((k % COLS : ℕ) : ℚ), final_y := ((k / COLS : ℕ) : ℚ),
             final_rot := 0 } ∧
    (randomize r m).random_seed < 1000000 := by
  refine ⟨initGravel_length, initGravel_get? k hk, ?_⟩
  show random_range 0 1000000 r < 1000000
  unfold random_range
  omega

/-- Witness for C6 at entropy 7, the startup model, cell 25. -/
theorem randomize_resets_witness :
    (randomize 7 (setup 0)).gravel.length = ROWS * COLS ∧
    (randomize 7 (setup 0)).random_seed < 1000000 :=
  ⟨(randomize_resets 7 (setup 0) 25 (by decide)).1,
   (randomize_resets 7 (setup 0) 25 (by decide)).2.2⟩

/-- C7 counterexample: from disp_adj = 1/20 (a non-negative value), one
Down press passes the strict-positivity guard and yields
1/20 - 1/10 = -1/20 < 0: a press can drive the factor below 0. -/
theorem factor_floor_cex :
    (0 : ℚ) ≤ 1/20 ∧
    (key_pressed 0 Key.Down { setup 0 with disp_adj := 1/20 }).disp_adj < 0 := by
  constructor
  · norm_num
  · norm_num [key_pressed]

/-- C7 amended: the decrement of 0.1 is applied only when the factor is
strictly greater than 0 before the subtraction, so starting from a
non-negative value, repeated Down (resp. Left) presses keep disp_adj
(resp. rot_adj) strictly above -0.1: the factor can drop below 0 (see
the counterexample) but never by more than one 0.1 step. -/
theorem factor_floor (m : Model) (n : ℕ) (hd : 0 ≤ m.disp_adj) (hr : 0 ≤ m.rot_adj) :
    -(1/10) < ((fun m2 => key_pressed 0 Key.Down m2)^[n] m).disp_adj ∧
    -(1/10) < ((fun m2 => key_pressed 0 Key.Left m2)^[n] m).rot_adj ∧
    (∀ m2 : Model, (key_pressed 0 Key.Down m2).disp_adj ≠ m2.disp_adj →
      0 < m2.disp_adj ∧ (key_pressed 0 Key.Down m2).disp_adj = m2.disp_adj - 1/10) ∧
    (∀ m2 : Model, (key_pressed 0 Key.Left m2).rot_adj ≠ m2.rot_adj →
      0 < m2.rot_adj ∧ (key_pressed 0 Key.Left m2).rot_adj = m2.rot_adj - 1/10) := by
  have down_eq : ∀ m2 : Model, (key_pressed 0 Key.Down m2).disp_adj =
      if 0 < m2.disp_adj then m2.disp_adj - 1/10 else m2.disp_adj := by
    intro m2
    by_cases h : 0 < m2.disp_adj
    · simp only [key_pressed, gt_iff_lt, if_pos h]
    · simp only [key_pressed, gt_iff_lt, if_neg h]
  have left_eq : ∀ m2 : Model, (key_pressed 0 Key.Left m2).rot_adj =
      if 0 < m2.rot_adj then m2.rot_adj - 1/10 else m2.rot_adj := by
    intro m2
    by_cases h : 0 < m2.rot_adj
    · simp only [key_pressed, gt_iff_lt, if_pos h]
    · simp only [key_pressed, gt_iff_lt, if_neg h]
  have down_inv : ∀ m2 : Model, -(1/10) < m2.disp_adj →
      -(1/10) < (key_pressed 0 Key.Down m2).disp_adj := by
    intro m2 h
    rw [down_eq]
    by_cases hp : 0 < m2.disp_adj
    · rw [if_pos hp]; linarith
    · rw [if_neg hp]; exact h
  have left_inv : ∀ m2 : Model, -(1/10) < m2.rot_adj →
      -(1/10) < (key_pressed 0 Key.Left m2).rot_adj := by
    intro m2 h
    rw [left_eq]
    by_cases hp : 0 < m2.rot_adj
    · rw [if_pos hp]; linarith
    · rw [if_neg hp]; exact h
  refine ⟨?_, ?_, ?_, ?_⟩
  · have : ∀ (j : ℕ) (m2 : Model), -(1/10) < m2.disp_adj →
        -(1/10) < ((fun m3 => key_pressed 0 Key.Down m3)^[j] m2).disp_adj := by
      intro j
      induction j with
      | zero => intro m2 h; simpa using h
      | succ j ih =>
        intro m2 h
        rw [Function.iterate_succ_apply]
        exact ih _ (down_inv m2 h)
    exact this n m (by linarith)
  · have : ∀ (j : ℕ) (m2 : Model), -(1/10) < m2.rot_adj →
        -(1/10) < ((fun m3 => key_pressed 0 Key.Left m3)^[j] m2).rot_adj := by
      intro j
      induction j with
      | zero => intro m2 h; simpa using h
      | succ j ih =>
        intro m2 h
        rw [Function.iterate_succ_apply]
        exact ih _ (left_inv m2 h)
    exact this n m (by linarith)
  · intro m2 hne
    rw [down_eq] at hne ⊢
    by_cases hp : 0 < m2.disp_adj
    · exact ⟨hp, by rw [if_pos hp]⟩
    · exact absurd (if_neg hp) hne
  · intro m2 hne
    rw [left_eq] at hne ⊢
    by_cases hp : 0 < m2.rot_adj
    · exact ⟨hp, by rw [if_pos hp]⟩
    · exact absurd (if_neg hp) hne

/-- Witness for C7 amended: twelve Down presses from the startup model. -/
theorem factor_floor_witness :
    -(1/10) < ((fun m2 => key_pressed 0 Key.Down m2)^[12] (setup 0)).disp_adj :=
  (factor_floor (setup 0) 12 (by norm_num [setup]) (by norm_num [setup])).1

/-- C9: every top-row cell (final_y = 0) has x_offset = y_offset =
rotation = 0 and current_y = 0 after every number of update passes from
the startup grid, for every draw stream (hence every seed) and all
displacement/rotation factor values: with depth factor current_y / ROWS
= 0, top-row squares never jitter or rotate, and never move in y. -/
theorem top_row_never_moves (rng : ℕ → ℚ) (p : Params) (n k : ℕ) (hk : k < COLS)
    (s : Stone) (hs : ((update rng p)^[n] initGravel).get? k = some s) :
    s.x_offset = 0 ∧ s.y_offset = 0 ∧ s.final_rot = 0 ∧ s.y = 0 := by
  have key : ∀ j : ℕ, ∃ t : Stone,
      ((update rng p)^[j] initGravel).get? k = some t ∧
      t.x_offset = 0 ∧ t.y_offset = 0 ∧ t.final_rot = 0 ∧ t.y = 0 ∧ t.final_y = 0 := by
    intro j
    induction j with
    | zero =>
      have hkk : k < ROWS * COLS := lt_of_lt_of_le hk (by norm_num [COLS, ROWS])
      refine ⟨Stone.new ((k % COLS : ℕ) : ℚ) ((k / COLS : ℕ) : ℚ), ?_, rfl, rfl, rfl, rfl, ?_⟩
      · simpa using initGravel_get? k hkk
      · have hdiv : k / COLS = 0 := Nat.div_eq_of_lt hk
        simp [Stone.new, hdiv]
    | succ j ih =>
      obtain ⟨t, ht, h1, h2, h3, h4, h5⟩ := ih
      refine ⟨updateStone p (rng (3 * k)) (rng (3 * k + 1)) (rng (3 * k + 2)) t,
        ?_, ?_, ?_, ?_, ?_, ?_⟩
      · rw [Function.iterate_succ_apply', update_get?, ht]
        rfl
      · rw [updateStone_x_offset, h4]
        simp
      · rw [updateStone_y_offset, h4]
        simp
      · rw [updateStone_final_rot, h4]
        simp
      · rw [updateStone_y, h4, h5]
        simp
      · rw [updateStone_final_y]
        exact h5
  obtain ⟨t, ht, h1, h2, h3, h4, _⟩ := key n
  rw [hs] at ht
  obtain rfl : s = t := Option.some_inj.mp ht
  exact ⟨h1, h2, h3, h4⟩

/-- Witness for C9: the top-left stone after one pass with seed 0. -/
theorem top_row_never_moves_witness :
    (Stone.new 0 0).x_offset = 0 ∧ (Stone.new 0 0).y_offset = 0 ∧
    (Stone.new 0 0).final_rot = 0 ∧ (Stone.new 0 0).y = 0 :=
  top_row_never_moves (stdRng 0) ⟨1, 1⟩ 1 0 (by norm_num [COLS]) (Stone.new 0 0)
    (by
      rw [Function.iterate_one, update_get?,
        show initGravel.get? 0 = some (Stone.new 0 0) by
          simpa using initGravel_get? 0 (by norm_num [ROWS, COLS])]
      show some (updateStone ⟨1, 1⟩ (stdRng 0 0) (stdRng 0 1) (stdRng 0 2) (Stone.new 0 0)) =
        some (Stone.new 0 0)
      simp [updateStone, Stone.new])

/-- The position invariant maintained by the animation pass: the target
row is a natural number, the animated y is a half-integer, y never
exceeds its target, and x stays strictly below its target plus one
x-step. -/
def StoneInv (s : Stone) : Prop :=
  (∃ j : ℕ, s.final_y = (j : ℚ)) ∧ (∃ m : ℕ, s.y = (m : ℚ) / 2) ∧
  0 ≤ s.final_x ∧ s.y ≤ s.final_y ∧ s.x < s.final_x + xStep

theorem xStep_pos : (0 : ℚ) < xStep := by norm_num [xStep, COLS, ROWS]

theorem stoneInv_init (t : Stone) (ht : t ∈ initGravel) : StoneInv t := by
  obtain ⟨k, hk⟩ := List.mem_iff_get?.1 ht
  have hlt : k < initGravel.length := by
    by_contra h
    rw [List.get?_eq_none.mpr (le_of_not_lt h)] at hk
    exact Option.noConfusion hk
  rw [initGravel_length] at hlt
  rw [initGravel_get? k hlt] at hk
  obtain rfl : t = Stone.new ((k % COLS : ℕ) : ℚ) ((k / COLS : ℕ) : ℚ) :=
    (Option.some_inj.mp hk).symm
  refine ⟨⟨k / COLS, rfl⟩, ⟨0, by norm_num [Stone.new]⟩, ?_, ?_, ?_⟩
  · show (0 : ℚ) ≤ ((k % COLS : ℕ) : ℚ)
    exact Nat.cast_nonneg _
  · show (0 : ℚ) ≤ ((k / COLS : ℕ) : ℚ)
    exact Nat.cast_nonneg _
  · show (0 : ℚ) < ((k % COLS : ℕ) : ℚ) + xStep
    have h1 : (0 : ℚ) ≤ ((k % COLS : ℕ) : ℚ) := Nat.cast_nonneg _
    linarith [xStep_pos]

theorem stoneInv_step (p : Params) (d1 d2 d3 : ℚ) (s : Stone) (h : StoneInv s) :
    StoneInv (updateStone p d1 d2 d3 s) := by
  obtain ⟨⟨j, hj⟩, ⟨m, hm⟩, hfx, hyle, hxlt⟩ := h
  refine ⟨⟨j, by rw [updateStone_final_y]; exact hj⟩, ?_, ?_, ?_, ?_⟩
  · by_cases hcy : s.y < s.final_y
    · refine ⟨m + 1, ?_⟩
      rw [updateStone_y, if_pos hcy, hm]
      push_cast
      ring
    · exact ⟨m, by rw [updateStone_y, if_neg hcy]; exact hm⟩
  · rw [updateStone_final_x]
    exact hfx
  · rw [updateStone_y, updateStone_final_y]
    by_cases hcy : s.y < s.final_y
    · rw [if_pos hcy]
      rw [hm, hj] at hcy ⊢
      have h1 : (m : ℚ) < 2 * j := by linarith
      have h2 : m < 2 * j := by exact_mod_cast h1
      have h3 : ((m + 1 : ℕ) : ℚ) ≤ ((2 * j : ℕ) : ℚ) := by exact_mod_cast h2
      push_cast at h3
      linarith
    · rw [if_neg hcy]
      exact hyle
  · rw [updateStone_x, updateStone_final_x]
    by_cases hcx : s.x < s.final_x
    · rw [if_pos hcx]
      linarith
    · rw [if_neg hcx]
      exact hxlt

theorem gravel_inv (rng : ℕ → ℚ) (p : Params) :
    ∀ n : ℕ, ∀ t ∈ (update rng p)^[n] initGravel, StoneInv t := by
  intro n
  induction n with
  | zero =>
    intro t ht
    rw [Function.iterate_zero_apply] at ht
    exact stoneInv_init t ht
  | succ n ih =>
    intro t ht
    rw [Function.iterate_succ_apply'] at ht
    obtain ⟨s, hsmem, d1, d2, d3, rfl⟩ := mem_update rng p _ t ht
    exact stoneInv_step p d1 d2 d3 s (ih s hsmem)

/-- C1 amended: for every stone, after any number of update ticks from
the initial zero state, current_y ≤ final_y holds (the y-step 1/2 evenly
divides the integer targets from a 0 start), but for x only the weaker
bound current_x < final_x + 0.5*(COLS/ROWS) holds: the x-step
0.5*(COLS/ROWS) = 3/11 does not evenly divide the integer targets, so
current_x does overshoot final_x (see the counterexample), though by
strictly less than one x-step. -/
theorem position_bounds (rng : ℕ → ℚ) (p : Params) (n : ℕ) (s : Stone)
    (hs : s ∈ (update rng p)^[n] initGravel) :
    s.y ≤ s.final_y ∧ s.x < s.final_x + xStep := by
  obtain ⟨-, -, -, h4, h5⟩ := gravel_inv rng p n s hs
  exact ⟨h4, h5⟩

/-- Witness for C1 amended: the top-left stone of the startup grid. -/
theorem position_bounds_witness :
    (Stone.new 0 0).y ≤ (Stone.new 0 0).final_y ∧
    (Stone.new 0 0).x < (Stone.new 0 0).final_x + xStep :=
  position_bounds (stdRng 0) ⟨1, 1⟩ 0 (Stone.new 0 0)
    (by
      rw [Function.iterate_zero_apply]
      refine List.mem_iff_get?.2 ⟨0, ?_⟩
      have h := initGravel_get? 0 (by norm_num [ROWS, COLS])
      norm_num [COLS] at h
      exact h)

/-- C1 counterexample: with seed 0 and the startup parameters, after 4
update passes the stone of column 1 in the top row has current_x =
12/11 > 1 = final_x: the animated position overshoots the integer
target, because the x-step 3/11 does not evenly divide 1. -/
theorem position_overshoot_cex :
    (((update (stdRng 0) ⟨1, 1⟩)^[4] initGravel).get? 1).map Stone.x = some (12 / 11) ∧
    (((update (stdRng 0) ⟨1, 1⟩)^[4] initGravel).get? 1).map Stone.final_x = some 1 ∧
    ¬ ((12 : ℚ) / 11 ≤ 1) := by
  have h0 : initGravel.get? 1 = some (Stone.new 1 0) := by
    have h := initGravel_get? 1 (by norm_num [ROWS, COLS])
    norm_num [COLS] at h
    exact h
  have estep : ∀ (g : List Stone) (t : Stone), g.get? 1 = some t →
      (update (stdRng 0) ⟨1, 1⟩ g).get? 1 =
        some (updateStone ⟨1, 1⟩ (stdRng 0 3) (stdRng 0 4) (stdRng 0 5) t) := by
    intro g t h
    rw [update_get?, h]
    rfl
  have h1 := estep _ _ h0
  have h2 := estep _ _ h1
  have h3 := estep _ _ h2
  have h4 := estep _ _ h3
  have hiter : (update (stdRng 0) ⟨1, 1⟩)^[4] initGravel =
      update (stdRng 0) ⟨1, 1⟩ (update (stdRng 0) ⟨1, 1⟩ (update (stdRng 0) ⟨1, 1⟩
        (update (stdRng 0) ⟨1, 1⟩ initGravel))) := rfl
  refine ⟨?_, ?_, by norm_num⟩
  · rw [hiter, h4]
    norm_num [updateStone_x, updateStone_final_x, Stone.new, xStep, COLS, ROWS]
  · rw [hiter, h4]
    simp [updateStone_final_x, Stone.new]
